import Mathlib

/-!
Shallow embedding of the Score Deobfuscation Engine of
`src/match-service/src/gathering.ts` (classes `MatchListParser` and
`FontParser`).

The embedding models:
* the in-memory sqlite cache (`font`, `glyph`, `glyph_unicode` tables and
  the `unicode_to_glyph_name` view) as lists of rows, with every `INSERT
  ... ON CONFLICT DO NOTHING` modelled as a conditional append;
* `FontParser.convertGlyphNameToNumber`, `queryGlyphByUnicode`,
  `translate`, `isFontCached`, `addFontToCache` as functions over that
  state; promise settlements are tracked precisely: a `reject` delivers a
  failure, while an exception thrown inside an asynchronous completion
  callback (where neither `resolve` nor `reject` runs) leaves the
  promise unsettled and escapes as an uncaught exception;
* the load-deduplication registry (`__fontMutexList`) and `loadFont` as a
  deterministic transition system over event traces;
* `FontParser.__loadFont`'s download / write / parse phase as a function
  of an environment that supplies the network, file-system, and parser
  outcomes;
* the per-operation "await `__dbInitialized` before touching the
  database" structure as explicit action sequences;
* the count-check-and-assemble tail of `MatchListParser.parse`.
-/

deriving instance DecidableEq for Except

namespace Gathering

/-! ## Cache database state

`FontParser.__init` creates three tables:
  `font(id PK, name)`,
  `glyph(font_id, glyph_index, glyph_name, PK (font_id, glyph_name),
         UNIQUE (font_id, glyph_index))`,
  `glyph_unicode(font_id, glyph_name, unicode, PK (font_id, glyph_name, unicode))`
and the view `unicode_to_glyph_name` joining the three.  Rows are kept in
insertion order, matching sqlite rowid order for these tables. -/

structure FontRow where
  id : String
  name : String
  deriving Repr, DecidableEq

structure GlyphRow where
  font_id : String
  glyph_index : Nat
  glyph_name : String
  deriving Repr, DecidableEq

structure GlyphUnicodeRow where
  font_id : String
  glyph_name : String
  unicode : Nat
  deriving Repr, DecidableEq

structure CacheDB where
  font : List FontRow
  glyph : List GlyphRow
  glyph_unicode : List GlyphUnicodeRow
  deriving Repr, DecidableEq

def emptyDB : CacheDB := ⟨[], [], []⟩

/-- `INSERT INTO font (id, name) VALUES (?, ?) ON CONFLICT DO NOTHING`
(`FontParser.__cacheFont`).  The only uniqueness constraint on `font` is
the primary key on `id`; on conflict the statement does nothing. -/
def insertFont (id name : String) (db : CacheDB) : CacheDB :=
  if db.font.any (fun r => r.id = id) then db
  else { db with font := db.font ++ [⟨id, name⟩] }

/-- `INSERT INTO glyph (font_id, glyph_index, glyph_name) VALUES (?, ?, ?)
ON CONFLICT DO NOTHING` (`FontParser.__cacheGlyph`).  `ON CONFLICT DO
NOTHING` without a conflict target suppresses a violation of either the
primary key `(font_id, glyph_name)` or the unique constraint
`(font_id, glyph_index)`.  The foreign key to `font` is still enforced
(`PRAGMA foreign_keys = ON`): inserting a glyph for an absent font id is
an error. -/
def insertGlyph (fid : String) (idx : Nat) (gname : String) (db : CacheDB) :
    Except String CacheDB :=
  if db.glyph.any (fun r =>
      (r.font_id = fid ∧ r.glyph_name = gname) ∨ (r.font_id = fid ∧ r.glyph_index = idx)) then
    Except.ok db
  else if db.font.any (fun r => r.id = fid) then
    Except.ok { db with glyph := db.glyph ++ [⟨fid, idx, gname⟩] }
  else
    Except.error "FOREIGN KEY constraint failed"

/-- `INSERT INTO glyph_unicode (font_id, glyph_name, unicode) VALUES
(?, ?, ?) ON CONFLICT DO NOTHING` (`FontParser.__cacheGlyphUnicode`),
with the foreign key `(font_id, glyph_name) REFERENCES glyph` enforced on
actual insertion. -/
def insertGlyphUnicode (fid gname : String) (u : Nat) (db : CacheDB) :
    Except String CacheDB :=
  if db.glyph_unicode.any (fun r =>
      r.font_id = fid ∧ r.glyph_name = gname ∧ r.unicode = u) then
    Except.ok db
  else if db.glyph.any (fun r => r.font_id = fid ∧ r.glyph_name = gname) then
    Except.ok { db with glyph_unicode := db.glyph_unicode ++ [⟨fid, gname, u⟩] }
  else
    Except.error "FOREIGN KEY constraint failed"

/-! ## Fonts as parsed by opentype.js

`addFontToCache` walks `font.glyphs` by position `i` and caches, for each
glyph, its name and every entry of `glyph.unicodes`. -/

structure GlyphData where
  name : String
  unicodes : List Nat
  deriving Repr, DecidableEq

structure Font where
  glyphs : List GlyphData
  deriving Repr, DecidableEq

/-- The inner loop of `FontParser.addFontToCache` over `glyph.unicodes`:
cache each unicode of a glyph in order, rejecting on the first error. -/
def cacheUnicodes (fid gname : String) : List Nat → CacheDB → Except String CacheDB
  | [], db => Except.ok db
  | u :: us, db =>
    match insertGlyphUnicode fid gname u db with
    | Except.error e => Except.error e
    | Except.ok db' => cacheUnicodes fid gname us db'

/-- The outer loop of `FontParser.addFontToCache` over `font.glyphs` by
position `i`: insert the glyph row, then each of its unicode rows. -/
def cacheGlyphs (fid : String) : List GlyphData → Nat → CacheDB → Except String CacheDB
  | [], _, db => Except.ok db
  | g :: gs, i, db =>
    match insertGlyph fid i g.name db with
    | Except.error e => Except.error e
    | Except.ok db₁ =>
      match cacheUnicodes fid g.name g.unicodes db₁ with
      | Except.error e => Except.error e
      | Except.ok db₂ => cacheGlyphs fid gs (i + 1) db₂

/-- `FontParser.addFontToCache(fontId, font)`: insert the font row (with
placeholder name `"n/a"`), then every glyph row and glyph-unicode row, in
glyph-table order; resolve `true` on success, reject on the first
database error. -/
def addFontToCache (fid : String) (font : Font) (db : CacheDB) : Except String CacheDB :=
  cacheGlyphs fid font.glyphs 0 (insertFont fid "n/a" db)

/-! ## Lookups -/

/-- ASCII lowercase of one character, as SQLite's `lower()` applies it. -/
def asciiLower (c : Char) : Char :=
  if 'A' ≤ c ∧ c ≤ 'Z' then Char.ofNat (c.toNat + 32) else c

/-- SQLite's `lower()`: ASCII characters `A`–`Z` are folded to lowercase,
everything else is left unchanged. -/
def sqlLower (s : String) : String := ⟨s.data.map asciiLower⟩

/-- `FontParser.isFontCached(fontId)`:
`SELECT 'x' FROM font WHERE lower(id) = lower(?)` — resolves `true` iff a
row matches, comparing ids case-insensitively. -/
def isFontCached (fid : String) (db : CacheDB) : Bool :=
  db.font.any (fun r => sqlLower r.id = sqlLower fid)

/-- The rows of the view `unicode_to_glyph_name`:
`font INNER JOIN glyph ON (f.id = g.font_id) INNER JOIN glyph_unicode ON
(g.font_id = gu.font_id AND g.glyph_name = gu.glyph_name)`, projected to
`(font_id, glyph_name, glyph_unicode)`. -/
def unicodeToGlyphName (db : CacheDB) : List GlyphUnicodeRow :=
  (db.font.flatMap (fun f =>
    (db.glyph.filter (fun g => f.id = g.font_id)).flatMap (fun g =>
      (db.glyph_unicode.filter (fun gu =>
        g.font_id = gu.font_id ∧ g.glyph_name = gu.glyph_name)).map (fun gu =>
          ⟨f.id, g.glyph_name, gu.unicode⟩))))

/-- The `get` of `FontParser.queryGlyphByUnicode`:
`SELECT glyph_name FROM unicode_to_glyph_name WHERE font_id = ? AND
glyph_unicode = ?` — note the case-SENSITIVE `font_id = ?` comparison,
unlike `isFontCached`.  `get` yields the first matching row, or no row. -/
def queryView (fid : String) (u : Nat) (db : CacheDB) : Option String :=
  ((unicodeToGlyphName db).filter
    (fun r => r.font_id = fid ∧ r.unicode = u)).head?.map (·.glyph_name)

/-- `FontParser.convertGlyphNameToNumber(name)`: the literal `switch`
over the ten digit tokens; any other name throws. -/
def convertGlyphNameToNumber (name : String) : Except String Nat :=
  if name = "zero" then Except.ok 0
  else if name = "one" then Except.ok 1
  else if name = "two" then Except.ok 2
  else if name = "three" then Except.ok 3
  else if name = "four" then Except.ok 4
  else if name = "five" then Except.ok 5
  else if name = "six" then Except.ok 6
  else if name = "seven" then Except.ok 7
  else if name = "eight" then Except.ok 8
  else if name = "nine" then Except.ok 9
  else Except.error ("Glyph name " ++ name ++ " is not supported for conversion!")

/-- Outcome of a promise whose work happens inside an asynchronous
completion callback, as seen by whoever awaits the promise. -/
inductive QueryOutcome where
  /-- `resolve` was invoked with this digit. -/
  | resolved (d : Nat)
  /-- `reject` was invoked with this error. -/
  | rejected (msg : String)
  /-- neither `resolve` nor `reject` was ever invoked: the promise never
  settles, and the error thrown inside the callback escapes the promise
  machinery as an uncaught exception. -/
  | uncaughtCrash (msg : String)
  deriving Repr, DecidableEq

/-- `FontParser.queryGlyphByUnicode(fontId, unicode)`.  The promise
executor only registers the sqlite3 `get` completion callback and
returns; the callback fires on a later event-loop tick.  Inside it,
`reject(error)` and `reject(new Error('No glyph ...'))` settle the
promise as rejected.  The success path is
`resolve(this.convertGlyphNameToNumber(glyphName))`: the argument is
evaluated before `resolve` is called, so when the conversion throws (an
unsupported glyph name) the throw happens inside the callback where
neither `resolve` nor `reject` runs — the promise never settles and the
error is an uncaught exception, not a rejection. -/
def queryGlyphByUnicode (fid : String) (u : Nat) (db : CacheDB) : QueryOutcome :=
  match queryView fid u db with
  | none =>
    QueryOutcome.rejected
      ("No glyph with unicode " ++ toString u ++ " found for font " ++ fid ++ "!")
  | some gname =>
    match convertGlyphNameToNumber gname with
    | Except.ok d => QueryOutcome.resolved d
    | Except.error e => QueryOutcome.uncaughtCrash e

/-- `FontParser.translate(fontId, unicode)`: await `queryGlyphByUnicode`
inside try/catch, resolving its value and re-rejecting a caught
rejection.  The catch only observes a settlement of the awaited promise:
when `queryGlyphByUnicode` never settles, `translate`'s promise never
settles either (and the uncaught exception has already escaped). -/
def translate (fid : String) (u : Nat) (db : CacheDB) : QueryOutcome :=
  queryGlyphByUnicode fid u db

/-- The ten canonical digit-name tokens, indexed by digit. -/
def digitToken (d : Nat) : String :=
  match d with
  | 0 => "zero" | 1 => "one" | 2 => "two" | 3 => "three" | 4 => "four"
  | 5 => "five" | 6 => "six" | 7 => "seven" | 8 => "eight" | 9 => "nine"
  | _ => ""

/-! ### Idempotence of `addFontToCache`

Every statement issued by `addFontToCache` is an `INSERT ... ON CONFLICT
DO NOTHING`, so rows are only ever appended, a row that would conflict is
never touched, and re-running the whole sequence against a state that
already contains its rows changes nothing. -/

/-- Rows only accumulate: every row of `db` is still present in `db'`. -/
def dbLE (db db' : CacheDB) : Prop :=
  (∀ r ∈ db.font, r ∈ db'.font) ∧
  (∀ r ∈ db.glyph, r ∈ db'.glyph) ∧
  (∀ r ∈ db.glyph_unicode, r ∈ db'.glyph_unicode)

/-- The `font` table has a row with primary key `fid`. -/
def fontHas (fid : String) (db : CacheDB) : Prop :=
  ∃ r ∈ db.font, r.id = fid

/-- Some `glyph` row conflicts with inserting `(fid, idx, gname)`:
either the primary key `(font_id, glyph_name)` or the unique pair
`(font_id, glyph_index)` is already taken. -/
def glyphConflict (fid : String) (idx : Nat) (gname : String) (db : CacheDB) : Prop :=
  ∃ r ∈ db.glyph,
    (r.font_id = fid ∧ r.glyph_name = gname) ∨ (r.font_id = fid ∧ r.glyph_index = idx)

/-- The `glyph_unicode` row `(fid, gname, u)` is present. -/
def guHas (fid gname : String) (u : Nat) (db : CacheDB) : Prop :=
  (⟨fid, gname, u⟩ : GlyphUnicodeRow) ∈ db.glyph_unicode

/-- All rows the `addFontToCache` loops would insert for `gs` starting
at glyph index `i` are already covered by `db`. -/
def GlyphsCached (fid : String) : List GlyphData → Nat → CacheDB → Prop
  | [], _, _ => True
  | g :: gs, i, db =>
    glyphConflict fid i g.name db ∧
    (∀ u ∈ g.unicodes, guHas fid g.name u db) ∧
    GlyphsCached fid gs (i + 1) db

/-- The cache state after caching font id `AB12CD34` with the single
glyph named `seven` at codepoint `0xE021` (= 57377). -/
def dbAB : CacheDB :=
  ⟨[⟨"AB12CD34", "n/a"⟩], [⟨"AB12CD34", 0, "seven"⟩], [⟨"AB12CD34", "seven", 57377⟩]⟩

/-- A cache holding a glyph named `colon` (not a digit token). -/
def dbColon : CacheDB :=
  ⟨[⟨"F1", "n/a"⟩], [⟨"F1", 0, "colon"⟩], [⟨"F1", "colon", 58000⟩]⟩

/-! ## The load coordinator (`loadFont` and `__fontMutexList`)

`FontParser.loadFont` keeps `__fontMutexList : Array<[string, Promise<Font>]>`.
On a call it searches the list for an entry whose key `=== fontId`
(exact string equality); if found it returns that entry's promise, and
otherwise it invokes `__loadFont(fontId)` (which synchronously starts the
download) and pushes the new pair.  There is no suspension point between
the search, the `__loadFont` invocation and the push — the promise
executor inside `__loadFont` runs synchronously up to its first `await`
and `loadFont` itself never awaits — so under Node's single-threaded
cooperative scheduling the whole of `loadFont` is one atomic step.  A
trace of the process is therefore a sequence of atomic events: `loadFont`
calls, and settlements of in-flight load tasks.  A load task settles at
most once (a promise resolves or rejects once), and within one task
`addFontToCache` is invoked at most once (single call site in
`__loadFont`'s continuation, guarded by `isFontCached`); the settle event
carries whether the task performed that cache record.  Nothing in the
source ever removes or replaces a `__fontMutexList` entry. -/

/-- Each started load task is named by a fresh id. -/
structure CoordState where
  /-- `__fontMutexList`: (font id, load task) pairs in push order. -/
  registry : List (String × Nat)
  /-- next fresh task id. -/
  nextTask : Nat
  /-- font ids for which `__loadFont` has been started, in order. -/
  fetches : List String
  /-- font ids for which the task ran `addFontToCache`, in order. -/
  records : List String
  /-- settled tasks, with their success flag (`true` = resolved). -/
  completed : List (Nat × Bool)
  deriving Repr, DecidableEq

def initCoord : CoordState := ⟨[], 0, [], [], []⟩

/-- `__fontMutexList.find((value) => value[0] === fontId)`, projected to
the stored promise. -/
def lookupRegistry (reg : List (String × Nat)) (fid : String) : Option Nat :=
  (reg.find? (fun p => p.1 = fid)).map (·.2)

/-- One `loadFont(fontId)` call: return the registered task if the mutex
list has an entry for the exact font id, else start `__loadFont` (a new
fetch) and push the new entry.  Returns the promise handed to the
caller. -/
def stepCall (s : CoordState) (fid : String) : CoordState × Nat :=
  match lookupRegistry s.registry fid with
  | some t => (s, t)
  | none =>
    ({ registry := s.registry ++ [(fid, s.nextTask)],
       nextTask := s.nextTask + 1,
       fetches := s.fetches ++ [fid],
       records := s.records,
       completed := s.completed }, s.nextTask)

/-- The font id a task was started for (tasks are created only inside
`stepCall`, under the key being loaded). -/
def taskFont (s : CoordState) (t : Nat) : Option String :=
  (s.registry.find? (fun p => p.2 = t)).map (·.1)

/-- Settlement of load task `t`: only a started, not-yet-settled task can
settle, it settles once, and it may perform its (at most one)
`addFontToCache` record for its font id. -/
def stepComplete (s : CoordState) (t : Nat) (ok : Bool) (didRecord : Bool) : CoordState :=
  if s.completed.any (fun p => p.1 = t) then s
  else
    match taskFont s t with
    | none => s
    | some fid =>
      { s with
        completed := s.completed ++ [(t, ok)],
        records := s.records ++ cond didRecord [fid] [] }

inductive Event where
  | call (fid : String)
  | complete (t : Nat) (ok : Bool) (didRecord : Bool)
  deriving Repr, DecidableEq

/-- Run a trace of events, collecting the promise returned to each
`loadFont` caller as a (font id, task) pair. -/
def exec (s : CoordState) : List Event → CoordState × List (String × Nat)
  | [] => (s, [])
  | Event.call fid :: es =>
    let c := stepCall s fid
    let r := exec c.1 es
    (r.1, (fid, c.2) :: r.2)
  | Event.complete t ok dr :: es => exec (stepComplete s t ok dr) es

def run (es : List Event) : CoordState := (exec initCoord es).1

def callResults (es : List Event) : List (String × Nat) := (exec initCoord es).2

inductive TaskStatus where
  | pending
  | succeeded
  | failed
  deriving Repr, DecidableEq

def statusOf (s : CoordState) (t : Nat) : TaskStatus :=
  match s.completed.find? (fun p => p.1 = t) with
  | none => TaskStatus.pending
  | some p => if p.2 then TaskStatus.succeeded else TaskStatus.failed

/-- Number of registry entries for a font id. -/
def countKey (reg : List (String × Nat)) (fid : String) : Nat :=
  (reg.filter (fun p => p.1 = fid)).length

/-- The coordinator invariant: registry keys are unique, fetch starts
match registry entries, records are bounded by one and only happen when
the font's unique task has settled. -/
def CoordInv (s : CoordState) : Prop :=
  (∀ fid, countKey s.registry fid ≤ 1) ∧
  (∀ fid, s.fetches.count fid = countKey s.registry fid) ∧
  (∀ fid, s.records.count fid ≤ 1) ∧
  (∀ fid t, lookupRegistry s.registry fid = some t → fid ∈ s.records →
    t ∈ s.completed.map (·.1)) ∧
  (∀ fid, fid ∈ s.records → (lookupRegistry s.registry fid).isSome)

/-! ## The download / write / parse phase of `__loadFont`

`FontParser.__loadFont` builds the download URL, then runs this promise
executor (marked `async`):

    const writeStream = fs.createWriteStream(fontDownloadPath);
    const response = await fetch(fontDownloadUrl);
    response.body.pipe(writeStream);
    response.body.on("error", (err) => reject(err));
    writeStream.on("finish", () => {
      const font = loadSync(fontDownloadPath);
      fs.unlinkSync(fontDownloadPath);
      resolve(font);
    });

The environment supplies the outcome of each external step.  Modelling
notes, each readable off the executor above:
* `response.status` is never read anywhere in `__loadFont`, so the
  outcome cannot depend on it;
* a rejection of `fetch` itself is thrown inside an `async` promise
  executor: the executor's own (ignored) promise rejects, `resolve` and
  `reject` of the outer promise are never invoked, so the returned
  promise stays pending forever;
* an error event on `response.body` invokes the installed handler and
  rejects;
* `writeStream` has no error handler: on a write failure `"finish"`
  never fires and again neither `resolve` nor `reject` is ever invoked —
  the promise stays pending;
* a `loadSync` throw on the written bytes happens inside the `"finish"`
  event listener, where — exactly as in `queryGlyphByUnicode`'s callback
  — neither `resolve` nor `reject` is invoked: the promise stays pending
  and the throw escapes as an uncaught exception; only a successful
  parse reaches `resolve(font)`. -/

structure FetchResponse where
  status : Nat
  /-- the streamed body: an error event, or the complete payload bytes. -/
  body : Except String (List Nat)
  deriving Repr

structure LoadEnv where
  /-- outcome of `await fetch(fontDownloadUrl)`. -/
  fetchResult : Except String FetchResponse
  /-- outcome of piping the payload into the temporary file. -/
  writeResult : List Nat → Except String Unit
  /-- `opentype.loadSync` on the written bytes. -/
  parseResult : List Nat → Except String Font

inductive LoadOutcome where
  /-- the promise resolves with the parsed font. -/
  | resolved (f : Font)
  /-- the promise rejects with an error. -/
  | rejected (msg : String)
  /-- neither `resolve` nor `reject` is ever called: the promise never
  settles (on the write-failure and parse-failure paths the uncaught
  throw additionally escapes the promise machinery). -/
  | pending
  deriving Repr, DecidableEq

def loadFontFetchPhase (env : LoadEnv) : LoadOutcome :=
  match env.fetchResult with
  | Except.error _ => LoadOutcome.pending
  | Except.ok resp =>
    match resp.body with
    | Except.error e => LoadOutcome.rejected e
    | Except.ok bytes =>
      match env.writeResult bytes with
      | Except.error _ => LoadOutcome.pending
      | Except.ok _ =>
        match env.parseResult bytes with
        | Except.error _ => LoadOutcome.pending
        | Except.ok font => LoadOutcome.resolved font

/-- Replace the HTTP status of a fetch outcome, leaving everything else
unchanged (used to state that `__loadFont` never inspects the status). -/
def withStatus (r : Except String FetchResponse) (s : Nat) : Except String FetchResponse :=
  match r with
  | Except.error e => Except.error e
  | Except.ok resp => Except.ok { resp with status := s }

/-- A font whose single glyph is named "seven" at codepoint 0xE021. -/
def fontOk : Font := ⟨[⟨"seven", [57377]⟩]⟩

/-- A fetch outcome with HTTP status 500 whose payload nevertheless
parses as a font, written and parsed without error. -/
def env500 : LoadEnv :=
  { fetchResult := Except.ok ⟨500, Except.ok [0]⟩,
    writeResult := fun _ => Except.ok (),
    parseResult := fun _ => Except.ok fontOk }

/-- A fetch whose response stream raises an error event. -/
def envBodyErr : LoadEnv :=
  { fetchResult := Except.ok ⟨200, Except.error "stream error"⟩,
    writeResult := fun _ => Except.ok (),
    parseResult := fun _ => Except.error "unsupported font" }

/-! ## Await-initialization structure of the cache operations

`FontParser.__dbInitialized` resolves when `__init` has created the
schema.  Each database-touching method of `FontParser` is flattened to
its sequence of database-related actions, in source order. -/

inductive DbAction where
  /-- `await this.__dbInitialized`. -/
  | awaitInit
  /-- `this.__cache.prepare(sql)` (statement compilation, not execution). -/
  | prepare (sql : String)
  /-- executing a prepared or direct statement (`run`). -/
  | sqlRun (sql : String)
  /-- executing a query (`get`). -/
  | sqlGet (sql : String)
  deriving Repr, DecidableEq

/-- `FontParser.isFontCached`. -/
def isFontCachedActions : List DbAction :=
  [DbAction.awaitInit,
   DbAction.sqlGet "SELECT 'x' FROM font WHERE lower(id) = lower(?)"]

/-- `FontParser.__cacheFont`. -/
def cacheFontActions : List DbAction :=
  [DbAction.prepare "INSERT INTO font (id, name) VALUES (?, ?) ON CONFLICT DO NOTHING;",
   DbAction.awaitInit,
   DbAction.sqlRun "INSERT INTO font (id, name) VALUES (?, ?) ON CONFLICT DO NOTHING;"]

/-- `FontParser.__cacheGlyph`. -/
def cacheGlyphActions : List DbAction :=
  [DbAction.prepare "INSERT INTO glyph (font_id, glyph_index, glyph_name) VALUES (?, ?, ?) ON CONFLICT DO NOTHING;",
   DbAction.awaitInit,
   DbAction.sqlRun "INSERT INTO glyph (font_id, glyph_index, glyph_name) VALUES (?, ?, ?) ON CONFLICT DO NOTHING;"]

/-- `FontParser.__cacheGlyphUnicode`. -/
def cacheGlyphUnicodeActions : List DbAction :=
  [DbAction.prepare "INSERT INTO glyph_unicode (font_id, glyph_name, unicode) VALUES (?, ?, ?) ON CONFLICT DO NOTHING;",
   DbAction.awaitInit,
   DbAction.sqlRun "INSERT INTO glyph_unicode (font_id, glyph_name, unicode) VALUES (?, ?, ?) ON CONFLICT DO NOTHING;"]

/-- `FontParser.queryGlyphByUnicode` — note: no `await this.__dbInitialized`
anywhere in its body. -/
def queryGlyphByUnicodeActions : List DbAction :=
  [DbAction.sqlGet "SELECT glyph_name FROM unicode_to_glyph_name WHERE font_id = ? AND glyph_unicode = ?;"]

def isQuery : DbAction → Bool
  | DbAction.sqlRun _ => true
  | DbAction.sqlGet _ => true
  | _ => false

/-- No statement is executed before the first `await __dbInitialized`:
the operation waits for schema initialization before executing its
query. -/
def awaitsInitBeforeQueries : List DbAction → Bool
  | [] => true
  | a :: rest =>
    if a = DbAction.awaitInit then true
    else if isQuery a then false
    else awaitsInitBeforeQueries rest

/-! ## The count checks and assembly at the end of `MatchListParser.parse`

After the per-cell extraction has produced the started timestamps, club
ids / names (two per match, home then guest), and the awaited home and
guest score arrays, `parse` rejects when
`homeScores.length !== guestScores.length`, when
`startedValues.length !== homeScores.length`, or when
`startedValues.length !== clubNames.length / 2` (JavaScript float
division: the equality holds exactly when `clubNames.length` is twice
`startedValues.length`), and otherwise assembles one match per score
pair.  Timestamps are abstracted to `Nat`.  Out-of-range list access
(impossible once the checks pass, given that club ids and names are
pushed in lockstep) is modelled with `getD` defaults. -/

structure TeamResult where
  id : String
  name : String
  score : Nat
  deriving Repr, DecidableEq

structure Match where
  started : Nat
  home : TeamResult
  guest : TeamResult
  deriving Repr, DecidableEq

def assembleMatches (started : List Nat) (clubIds clubNames : List String)
    (home guest : List Nat) : List Match :=
  (List.range home.length).map (fun i =>
    { started := started.getD i 0,
      home := ⟨clubIds.getD (2 * i) "", clubNames.getD (2 * i) "", home.getD i 0⟩,
      guest := ⟨clubIds.getD (2 * i + 1) "", clubNames.getD (2 * i + 1) "", guest.getD i 0⟩ })

def parseChecked (started : List Nat) (clubIds clubNames : List String)
    (home guest : List Nat) : Except String (List Match) :=
  if home.length ≠ guest.length then
    Except.error ("Fetched " ++ toString home.length ++ " home scores but "
      ++ toString guest.length ++ " guest scores!")
  else if started.length ≠ home.length then
    Except.error ("Fetched " ++ toString home.length ++ " scores but "
      ++ toString started.length ++ " matches!")
  else if 2 * started.length ≠ clubNames.length then
    Except.error ("Fetched " ++ toString home.length ++ " scores but "
      ++ toString started.length ++ " matches!")
  else
    Except.ok (assembleMatches started clubIds clubNames home guest)

/-! ## Supporting lemmas -/

/-! ### Registry lookup facts -/

lemma two_le_length_of_mem {α : Type} {a b : α} {l : List α}
    (ha : a ∈ l) (hb : b ∈ l) (hne : a ≠ b) : 2 ≤ l.length := by
  match l with
  | [] => simp at ha
  | [x] =>
    simp only [List.mem_singleton] at ha hb
    exact absurd (ha.trans hb.symm) hne
  | x :: y :: t => simp only [List.length_cons]; omega

lemma lookupRegistry_cons (p : String × Nat) (reg : List (String × Nat)) (fid : String) :
    lookupRegistry (p :: reg) fid =
      if p.1 = fid then some p.2 else lookupRegistry reg fid := by
  unfold lookupRegistry
  by_cases hp : p.1 = fid
  · rw [List.find?_cons_of_pos _ (by simp [hp]), if_pos hp]
    rfl
  · rw [List.find?_cons_of_neg _ (by simp [hp]), if_neg hp]

lemma lookupRegistry_some_mem {reg : List (String × Nat)} {fid : String} {t : Nat}
    (h : lookupRegistry reg fid = some t) : (fid, t) ∈ reg := by
  induction reg with
  | nil => simp [lookupRegistry] at h
  | cons p reg ih =>
    rw [lookupRegistry_cons] at h
    by_cases hp : p.1 = fid
    · rw [if_pos hp] at h
      have : p = (fid, t) := by
        cases p
        simp only at hp
        simp only [Option.some_inj] at h
        simp [hp, h]
      rw [this] at *
      exact List.mem_cons_self _ _
    · rw [if_neg hp] at h
      exact List.mem_cons_of_mem _ (ih h)

lemma lookupRegistry_eq_none {reg : List (String × Nat)} {fid : String} :
    lookupRegistry reg fid = none ↔ ∀ p ∈ reg, p.1 ≠ fid := by
  unfold lookupRegistry
  simp [Option.map_eq_none, List.find?_eq_none]

lemma countKey_eq_zero {reg : List (String × Nat)} {fid : String}
    (h : lookupRegistry reg fid = none) : countKey reg fid = 0 := by
  rw [lookupRegistry_eq_none] at h
  unfold countKey
  rw [List.length_eq_zero, List.filter_eq_nil_iff]
  intro p hp
  simpa using h p hp

lemma one_le_countKey_of_some {reg : List (String × Nat)} {fid : String} {t : Nat}
    (h : lookupRegistry reg fid = some t) : 1 ≤ countKey reg fid := by
  have hm : (fid, t) ∈ reg.filter (fun p => p.1 = fid) := by
    simp [List.mem_filter, lookupRegistry_some_mem h]
  have := List.length_pos.mpr (List.ne_nil_of_mem hm)
  unfold countKey; omega

lemma lookupRegistry_unique {reg : List (String × Nat)} {fid : String} {t t' : Nat}
    (hK : countKey reg fid ≤ 1) (hmem : (fid, t) ∈ reg)
    (h : lookupRegistry reg fid = some t') : t = t' := by
  by_contra hne
  have h1 : (fid, t) ∈ reg.filter (fun p => p.1 = fid) := by
    simp [List.mem_filter, hmem]
  have h2 : (fid, t') ∈ reg.filter (fun p => p.1 = fid) := by
    simp [List.mem_filter, lookupRegistry_some_mem h]
  have hle := two_le_length_of_mem h1 h2 (by simp [hne])
  unfold countKey at hK; omega

lemma lookupRegistry_append_some {reg : List (String × Nat)} {fid : String} {t : Nat}
    (h : lookupRegistry reg fid = some t) (l : List (String × Nat)) :
    lookupRegistry (reg ++ l) fid = some t := by
  induction reg with
  | nil => simp [lookupRegistry] at h
  | cons p reg ih =>
    rw [List.cons_append, lookupRegistry_cons]
    rw [lookupRegistry_cons] at h
    by_cases hp : p.1 = fid
    · rw [if_pos hp] at h ⊢; exact h
    · rw [if_neg hp] at h ⊢; exact ih h

lemma lookupRegistry_append_ne {reg : List (String × Nat)} {fid g : String} {t : Nat}
    (hne : fid ≠ g) :
    lookupRegistry (reg ++ [(fid, t)]) g = lookupRegistry reg g := by
  induction reg with
  | nil =>
    rw [List.nil_append, lookupRegistry_cons]
    simp [hne]
  | cons p reg ih =>
    rw [List.cons_append, lookupRegistry_cons, lookupRegistry_cons, ih]

lemma lookupRegistry_append_self {reg : List (String × Nat)} {fid : String}
    (h : lookupRegistry reg fid = none) (t : Nat) :
    lookupRegistry (reg ++ [(fid, t)]) fid = some t := by
  induction reg with
  | nil => rw [List.nil_append, lookupRegistry_cons, if_pos rfl]
  | cons p reg ih =>
    rw [lookupRegistry_cons] at h
    by_cases hp : p.1 = fid
    · rw [if_pos hp] at h; exact absurd h (by simp)
    · rw [if_neg hp] at h
      rw [List.cons_append, lookupRegistry_cons, if_neg hp]
      exact ih h

lemma taskFont_some_mem {s : CoordState} {t : Nat} {fid : String}
    (h : taskFont s t = some fid) : (fid, t) ∈ s.registry := by
  unfold taskFont at h
  cases hf : s.registry.find? (fun p => p.2 = t) with
  | none => rw [hf] at h; simp at h
  | some p =>
    rw [hf] at h
    have hp := List.find?_some hf
    have hm := List.mem_of_find?_eq_some hf
    simp only [decide_eq_true_eq] at hp
    cases p
    simp only [Option.map_some', Option.some_inj] at h
    simp only at hp
    subst hp; subst h
    exact hm

/-! ### Step characterizations and invariant preservation -/

lemma countKey_append (reg l : List (String × Nat)) (g : String) :
    countKey (reg ++ l) g = countKey reg g + countKey l g := by
  unfold countKey; rw [List.filter_append, List.length_append]

lemma countKey_singleton (p : String × Nat) (g : String) :
    countKey [p] g = if p.1 = g then 1 else 0 := by
  unfold countKey; by_cases h : p.1 = g <;> simp [h]

lemma stepCall_hit {s : CoordState} {fid : String} {t : Nat}
    (h : lookupRegistry s.registry fid = some t) : stepCall s fid = (s, t) := by
  unfold stepCall; rw [h]

lemma stepCall_miss {s : CoordState} {fid : String}
    (h : lookupRegistry s.registry fid = none) :
    stepCall s fid =
      ({ registry := s.registry ++ [(fid, s.nextTask)],
         nextTask := s.nextTask + 1,
         fetches := s.fetches ++ [fid],
         records := s.records,
         completed := s.completed }, s.nextTask) := by
  unfold stepCall; rw [h]

lemma stepComplete_settled {s : CoordState} {t : Nat} (ok dr : Bool)
    (hc : s.completed.any (fun p => p.1 = t) = true) :
    stepComplete s t ok dr = s := by
  unfold stepComplete; simp [hc]

lemma stepComplete_unstarted {s : CoordState} {t : Nat} (ok dr : Bool)
    (hc : s.completed.any (fun p => p.1 = t) = false)
    (htf : taskFont s t = none) :
    stepComplete s t ok dr = s := by
  unfold stepComplete; simp [hc, htf]

lemma stepComplete_settles {s : CoordState} {t : Nat} {fid : String} (ok dr : Bool)
    (hc : s.completed.any (fun p => p.1 = t) = false)
    (htf : taskFont s t = some fid) :
    stepComplete s t ok dr =
      { s with completed := s.completed ++ [(t, ok)],
               records := s.records ++ cond dr [fid] [] } := by
  unfold stepComplete; simp [hc, htf]

lemma coordInv_init : CoordInv initCoord := by
  refine ⟨?_, ?_, ?_, ?_, ?_⟩ <;> simp [initCoord, countKey, lookupRegistry]

lemma stepCall_lookup_self (s : CoordState) (fid : String) :
    lookupRegistry (stepCall s fid).1.registry fid = some (stepCall s fid).2 := by
  cases h : lookupRegistry s.registry fid with
  | some t => rw [stepCall_hit h]; exact h
  | none =>
    rw [stepCall_miss h]
    show lookupRegistry (s.registry ++ [(fid, s.nextTask)]) fid = some s.nextTask
    exact lookupRegistry_append_self h _

lemma coordInv_stepCall {s : CoordState} (h : CoordInv s) (fid : String) :
    CoordInv (stepCall s fid).1 := by
  obtain ⟨hB, hA, hF, hN, hO⟩ := h
  cases hl : lookupRegistry s.registry fid with
  | some t => rw [stepCall_hit hl]; exact ⟨hB, hA, hF, hN, hO⟩
  | none =>
    rw [stepCall_miss hl]
    have hK0 : countKey s.registry fid = 0 := countKey_eq_zero hl
    refine ⟨?_, ?_, ?_, ?_, ?_⟩
    · intro g
      show countKey (s.registry ++ [(fid, s.nextTask)]) g ≤ 1
      rw [countKey_append, countKey_singleton]
      by_cases hg : fid = g
      · subst hg; simp [hK0]
      · rw [if_neg hg]
        have := hB g
        omega
    · intro g
      show (s.fetches ++ [fid]).count g = countKey (s.registry ++ [(fid, s.nextTask)]) g
      rw [List.count_append, countKey_append, countKey_singleton, hA g]
      by_cases hg : fid = g
      · subst hg
        rw [if_pos rfl]
        simp
      · rw [if_neg hg]
        have h1 : List.count g [fid] = 0 := by
          rw [List.count_eq_zero]
          simp only [List.mem_singleton]
          exact fun hgg => hg hgg.symm
        omega
    · intro g
      show s.records.count g ≤ 1
      exact hF g
    · intro g t' hg hrec
      have hg' : lookupRegistry (s.registry ++ [(fid, s.nextTask)]) g = some t' := hg
      have hrec' : g ∈ s.records := hrec
      show t' ∈ s.completed.map (·.1)
      by_cases hfg : fid = g
      · subst hfg
        have := hO fid hrec'
        rw [hl] at this
        simp at this
      · rw [lookupRegistry_append_ne hfg] at hg'
        exact hN g t' hg' hrec'
    · intro g hrec
      have hrec' : g ∈ s.records := hrec
      show (lookupRegistry (s.registry ++ [(fid, s.nextTask)]) g).isSome = true
      have hsome := hO g hrec'
      cases hsome' : lookupRegistry s.registry g with
      | none => rw [hsome'] at hsome; simp at hsome
      | some t' => rw [lookupRegistry_append_some hsome']; rfl

lemma stepComplete_registry (s : CoordState) (t : Nat) (ok dr : Bool) :
    (stepComplete s t ok dr).registry = s.registry := by
  cases hc : s.completed.any (fun p => p.1 = t) with
  | true => rw [stepComplete_settled ok dr hc]
  | false =>
    cases htf : taskFont s t with
    | none => rw [stepComplete_unstarted ok dr hc htf]
    | some fid => rw [stepComplete_settles ok dr hc htf]

lemma stepComplete_fetches (s : CoordState) (t : Nat) (ok dr : Bool) :
    (stepComplete s t ok dr).fetches = s.fetches := by
  cases hc : s.completed.any (fun p => p.1 = t) with
  | true => rw [stepComplete_settled ok dr hc]
  | false =>
    cases htf : taskFont s t with
    | none => rw [stepComplete_unstarted ok dr hc htf]
    | some fid => rw [stepComplete_settles ok dr hc htf]

lemma coordInv_stepComplete {s : CoordState} (h : CoordInv s) (t : Nat) (ok dr : Bool) :
    CoordInv (stepComplete s t ok dr) := by
  obtain ⟨hB, hA, hF, hN, hO⟩ := h
  cases hc : s.completed.any (fun p => p.1 = t) with
  | true => rw [stepComplete_settled ok dr hc]; exact ⟨hB, hA, hF, hN, hO⟩
  | false =>
    cases htf : taskFont s t with
    | none => rw [stepComplete_unstarted ok dr hc htf]; exact ⟨hB, hA, hF, hN, hO⟩
    | some fid =>
      rw [stepComplete_settles ok dr hc htf]
      have hmem : (fid, t) ∈ s.registry := taskFont_some_mem htf
      have htc : t ∉ s.completed.map (·.1) := by
        intro hmem'
        rw [List.mem_map] at hmem'
        obtain ⟨p, hp, hpt⟩ := hmem'
        have : s.completed.any (fun p => p.1 = t) = true := by
          rw [List.any_eq_true]
          exact ⟨p, hp, by simp [hpt]⟩
        rw [hc] at this
        exact Bool.false_ne_true this
      refine ⟨?_, ?_, ?_, ?_, ?_⟩
      · intro g
        show countKey s.registry g ≤ 1
        exact hB g
      · intro g
        show s.fetches.count g = countKey s.registry g
        exact hA g
      · intro g
        show (s.records ++ cond dr [fid] []).count g ≤ 1
        cases dr with
        | false => simpa using hF g
        | true =>
          rw [List.count_append]
          by_cases hg : fid = g
          · subst hg
            have hcnt0 : s.records.count fid = 0 := by
              by_contra hpos
              have hmemfid : fid ∈ s.records :=
                List.count_pos_iff.mp (Nat.pos_of_ne_zero hpos)
              have hsome := hO fid hmemfid
              cases hsome' : lookupRegistry s.registry fid with
              | none => rw [hsome'] at hsome; simp at hsome
              | some t' =>
                have ht' := hN fid t' hsome' hmemfid
                have heq : t = t' := lookupRegistry_unique (hB fid) hmem hsome'
                exact htc (by rw [heq]; exact ht')
            have h1 : List.count fid (cond true [fid] []) = 1 := by simp
            omega
          · have h1 : List.count g (cond true [fid] []) = 0 := by
              show List.count g [fid] = 0
              rw [List.count_eq_zero]
              simp only [List.mem_singleton]
              exact fun hgg => hg hgg.symm
            have := hF g
            omega
      · intro g t' hg hrec
        have hg' : lookupRegistry s.registry g = some t' := hg
        show t' ∈ (s.completed ++ [(t, ok)]).map (·.1)
        rw [List.map_append, List.mem_append]
        cases dr with
        | false =>
          have hrec' : g ∈ s.records := by simpa using hrec
          exact Or.inl (hN g t' hg' hrec')
        | true =>
          have hrec' : g ∈ s.records ++ [fid] := hrec
          rw [List.mem_append] at hrec'
          cases hrec' with
          | inl hold => exact Or.inl (hN g t' hg' hold)
          | inr hnew =>
            rw [List.mem_singleton] at hnew
            subst hnew
            have heq : t' = t := (lookupRegistry_unique (hB g) hmem hg').symm
            subst heq
            exact Or.inr (by simp)
      · intro g hrec
        show (lookupRegistry s.registry g).isSome = true
        cases dr with
        | false =>
          have hrec' : g ∈ s.records := by simpa using hrec
          exact hO g hrec'
        | true =>
          have hrec' : g ∈ s.records ++ [fid] := hrec
          rw [List.mem_append] at hrec'
          cases hrec' with
          | inl hold => exact hO g hold
          | inr hnew =>
            rw [List.mem_singleton] at hnew
            subst hnew
            cases hf : s.registry.find? (fun p => p.1 = g) with
            | none =>
              rw [List.find?_eq_none] at hf
              exact absurd (by simp) (hf (g, t) hmem)
            | some p =>
              unfold lookupRegistry
              rw [hf]
              rfl

/-! ### Trace-level lemmas for the coordinator -/

lemma coordInv_exec {s : CoordState} (h : CoordInv s) (es : List Event) :
    CoordInv (exec s es).1 := by
  induction es generalizing s with
  | nil => simpa [exec] using h
  | cons e es ih =>
    cases e with
    | call fid =>
      have hstep := ih (coordInv_stepCall h fid)
      simpa [exec] using hstep
    | complete t ok dr =>
      have hstep := ih (coordInv_stepComplete h t ok dr)
      simpa [exec] using hstep

lemma exec_stable {s : CoordState} {fid : String} {t : Nat}
    (h : lookupRegistry s.registry fid = some t) (es : List Event) :
    lookupRegistry (exec s es).1.registry fid = some t ∧
      (exec s es).1.fetches.count fid = s.fetches.count fid := by
  induction es generalizing s with
  | nil => exact ⟨h, rfl⟩
  | cons e es ih =>
    cases e with
    | call g =>
      have hred : (exec s (Event.call g :: es)).1 = (exec (stepCall s g).1 es).1 := by
        simp [exec]
      cases hl : lookupRegistry s.registry g with
      | some t' =>
        have hstate : (stepCall s g).1 = s := by rw [stepCall_hit hl]
        have hrest := ih (s := (stepCall s g).1) (by rw [hstate]; exact h)
        rw [hstate] at hrest
        refine ⟨?_, ?_⟩
        · rw [hred, hstate]; exact hrest.1
        · rw [hred, hstate]; exact hrest.2
      | none =>
        have hne : g ≠ fid := by
          intro hgf
          subst hgf
          rw [hl] at h
          exact Option.noConfusion h
        have hlook : lookupRegistry (stepCall s g).1.registry fid = some t := by
          rw [stepCall_miss hl]
          show lookupRegistry (s.registry ++ [(g, s.nextTask)]) fid = some t
          rw [lookupRegistry_append_ne hne]
          exact h
        have hcount : (stepCall s g).1.fetches.count fid = s.fetches.count fid := by
          rw [stepCall_miss hl]
          show (s.fetches ++ [g]).count fid = s.fetches.count fid
          rw [List.count_append]
          have h0 : List.count fid [g] = 0 := by
            rw [List.count_eq_zero]
            simp only [List.mem_singleton]
            exact fun hf => hne hf.symm
          omega
        have hrest := ih hlook
        exact ⟨by rw [hred]; exact hrest.1, by rw [hred, hrest.2, hcount]⟩
    | complete t' ok dr =>
      have hred : (exec s (Event.complete t' ok dr :: es)).1 =
          (exec (stepComplete s t' ok dr) es).1 := by
        simp [exec]
      have hlook : lookupRegistry (stepComplete s t' ok dr).registry fid = some t := by
        rw [stepComplete_registry]; exact h
      have hrest := ih hlook
      exact ⟨by rw [hred]; exact hrest.1,
        by rw [hred, hrest.2, stepComplete_fetches]⟩

lemma exec_callResult {s : CoordState} {es : List Event} :
    ∀ p ∈ (exec s es).2, lookupRegistry (exec s es).1.registry p.1 = some p.2 := by
  induction es generalizing s with
  | nil => intro p hp; simp [exec] at hp
  | cons e es ih =>
    cases e with
    | call g =>
      intro p hp
      have hred1 : (exec s (Event.call g :: es)).1 = (exec (stepCall s g).1 es).1 := by
        simp [exec]
      have hred2 : (exec s (Event.call g :: es)).2 =
          (g, (stepCall s g).2) :: (exec (stepCall s g).1 es).2 := by
        simp [exec]
      rw [hred2] at hp
      rw [hred1]
      rcases List.mem_cons.mp hp with heq | hp'
      · subst heq
        exact (exec_stable (stepCall_lookup_self s g) es).1
      · exact ih p hp'
    | complete t ok dr =>
      intro p hp
      have hred1 : (exec s (Event.complete t ok dr :: es)).1 =
          (exec (stepComplete s t ok dr) es).1 := by
        simp [exec]
      have hred2 : (exec s (Event.complete t ok dr :: es)).2 =
          (exec (stepComplete s t ok dr) es).2 := by
        simp [exec]
      rw [hred2] at hp
      rw [hred1]
      exact ih p hp

lemma exec_call_lookup {s : CoordState} {fid : String} {es : List Event}
    (h : Event.call fid ∈ es) :
    ∃ t, lookupRegistry (exec s es).1.registry fid = some t := by
  induction es generalizing s with
  | nil => simp at h
  | cons e es ih =>
    rcases List.mem_cons.mp h with he | he
    · subst he
      have hred : (exec s (Event.call fid :: es)).1 = (exec (stepCall s fid).1 es).1 := by
        simp [exec]
      rw [hred]
      exact ⟨_, (exec_stable (stepCall_lookup_self s fid) es).1⟩
    · cases e with
      | call g =>
        have hred : (exec s (Event.call g :: es)).1 = (exec (stepCall s g).1 es).1 := by
          simp [exec]
        rw [hred]
        exact ih he
      | complete t ok dr =>
        have hred : (exec s (Event.complete t ok dr :: es)).1 =
            (exec (stepComplete s t ok dr) es).1 := by
          simp [exec]
        rw [hred]
        exact ih he

lemma exec_append (s : CoordState) (es₁ es₂ : List Event) :
    (exec s (es₁ ++ es₂)).1 = (exec (exec s es₁).1 es₂).1 := by
  induction es₁ generalizing s with
  | nil => rfl
  | cons e es ih =>
    cases e with
    | call g =>
      rw [List.cons_append]
      have h1 : (exec s (Event.call g :: (es ++ es₂))).1 =
          (exec (stepCall s g).1 (es ++ es₂)).1 := by simp [exec]
      have h2 : (exec s (Event.call g :: es)).1 = (exec (stepCall s g).1 es).1 := by
        simp [exec]
      rw [h1, h2, ih]
    | complete t ok dr =>
      rw [List.cons_append]
      have h1 : (exec s (Event.complete t ok dr :: (es ++ es₂))).1 =
          (exec (stepComplete s t ok dr) (es ++ es₂)).1 := by simp [exec]
      have h2 : (exec s (Event.complete t ok dr :: es)).1 =
          (exec (stepComplete s t ok dr) es).1 := by simp [exec]
      rw [h1, h2, ih]

lemma dbLE_refl (db : CacheDB) : dbLE db db :=
  ⟨fun _ h => h, fun _ h => h, fun _ h => h⟩

lemma dbLE_trans {a b c : CacheDB} (h1 : dbLE a b) (h2 : dbLE b c) : dbLE a c :=
  ⟨fun r h => h2.1 r (h1.1 r h), fun r h => h2.2.1 r (h1.2.1 r h),
   fun r h => h2.2.2 r (h1.2.2 r h)⟩

lemma fontHas_mono {fid : String} {db db' : CacheDB} (hle : dbLE db db')
    (h : fontHas fid db) : fontHas fid db' := by
  obtain ⟨r, hr, hid⟩ := h
  exact ⟨r, hle.1 r hr, hid⟩

lemma glyphConflict_mono {fid : String} {idx : Nat} {gname : String} {db db' : CacheDB}
    (hle : dbLE db db') (h : glyphConflict fid idx gname db) :
    glyphConflict fid idx gname db' := by
  obtain ⟨r, hr, hc⟩ := h
  exact ⟨r, hle.2.1 r hr, hc⟩

lemma guHas_mono {fid gname : String} {u : Nat} {db db' : CacheDB} (hle : dbLE db db')
    (h : guHas fid gname u db) : guHas fid gname u db' :=
  hle.2.2 _ h

lemma GlyphsCached_mono {fid : String} {gs : List GlyphData} {i : Nat} {db db' : CacheDB}
    (hle : dbLE db db') (h : GlyphsCached fid gs i db) : GlyphsCached fid gs i db' := by
  induction gs generalizing i with
  | nil => trivial
  | cons g gs ih =>
    obtain ⟨h1, h2, h3⟩ := h
    exact ⟨glyphConflict_mono hle h1, fun u hu => guHas_mono hle (h2 u hu), ih h3⟩

lemma insertFont_dbLE (id name : String) (db : CacheDB) :
    dbLE db (insertFont id name db) := by
  unfold insertFont
  split
  · exact dbLE_refl db
  · exact ⟨fun r h => List.mem_append_left _ h, fun _ h => h, fun _ h => h⟩

lemma insertFont_establish (id name : String) (db : CacheDB) :
    fontHas id (insertFont id name db) := by
  unfold insertFont
  cases hc : db.font.any (fun r => r.id = id) with
  | true =>
    rw [if_pos rfl]
    rw [List.any_eq_true] at hc
    obtain ⟨r, hr, hid⟩ := hc
    exact ⟨r, hr, by simpa using hid⟩
  | false =>
    rw [if_neg Bool.false_ne_true]
    exact ⟨⟨id, name⟩, List.mem_append_right _ (List.mem_singleton.mpr rfl), rfl⟩

lemma insertFont_noop {id : String} (name : String) {db : CacheDB}
    (h : fontHas id db) : insertFont id name db = db := by
  unfold insertFont
  have hb : db.font.any (fun r => r.id = id) = true := by
    rw [List.any_eq_true]
    obtain ⟨r, hr, hid⟩ := h
    exact ⟨r, hr, by simp [hid]⟩
  rw [if_pos hb]

lemma insertGlyph_dbLE {fid : String} {idx : Nat} {gname : String} {db db' : CacheDB}
    (h : insertGlyph fid idx gname db = Except.ok db') : dbLE db db' := by
  unfold insertGlyph at h
  split at h
  · injection h with h; subst h; exact dbLE_refl _
  · split at h
    · injection h with h; subst h
      exact ⟨fun _ h => h, fun r h => List.mem_append_left _ h, fun _ h => h⟩
    · exact Except.noConfusion h

lemma insertGlyph_establish {fid : String} {idx : Nat} {gname : String} {db db' : CacheDB}
    (h : insertGlyph fid idx gname db = Except.ok db') :
    glyphConflict fid idx gname db' := by
  unfold insertGlyph at h
  cases hc : db.glyph.any (fun r =>
      (r.font_id = fid ∧ r.glyph_name = gname) ∨ (r.font_id = fid ∧ r.glyph_index = idx)) with
  | true =>
    rw [if_pos hc] at h
    injection h with h; subst h
    rw [List.any_eq_true] at hc
    obtain ⟨r, hr, hcond⟩ := hc
    exact ⟨r, hr, by simpa using hcond⟩
  | false =>
    rw [if_neg (by rw [hc]; exact Bool.false_ne_true)] at h
    split at h
    · injection h with h; subst h
      exact ⟨⟨fid, idx, gname⟩, List.mem_append_right _ (List.mem_singleton.mpr rfl),
        Or.inl ⟨rfl, rfl⟩⟩
    · exact Except.noConfusion h

lemma insertGlyph_noop {fid : String} {idx : Nat} {gname : String} {db : CacheDB}
    (h : glyphConflict fid idx gname db) : insertGlyph fid idx gname db = Except.ok db := by
  unfold insertGlyph
  have hb : db.glyph.any (fun r =>
      (r.font_id = fid ∧ r.glyph_name = gname) ∨ (r.font_id = fid ∧ r.glyph_index = idx)) = true := by
    rw [List.any_eq_true]
    obtain ⟨r, hr, hcond⟩ := h
    exact ⟨r, hr, by simpa using hcond⟩
  rw [if_pos hb]

lemma insertGlyphUnicode_dbLE {fid gname : String} {u : Nat} {db db' : CacheDB}
    (h : insertGlyphUnicode fid gname u db = Except.ok db') : dbLE db db' := by
  unfold insertGlyphUnicode at h
  split at h
  · injection h with h; subst h; exact dbLE_refl _
  · split at h
    · injection h with h; subst h
      exact ⟨fun _ h => h, fun _ h => h, fun r h => List.mem_append_left _ h⟩
    · exact Except.noConfusion h

lemma insertGlyphUnicode_establish {fid gname : String} {u : Nat} {db db' : CacheDB}
    (h : insertGlyphUnicode fid gname u db = Except.ok db') : guHas fid gname u db' := by
  unfold insertGlyphUnicode at h
  cases hc : db.glyph_unicode.any (fun r =>
      r.font_id = fid ∧ r.glyph_name = gname ∧ r.unicode = u) with
  | true =>
    rw [if_pos hc] at h
    injection h with h; subst h
    rw [List.any_eq_true] at hc
    obtain ⟨r, hr, hcond⟩ := hc
    simp only [decide_eq_true_eq] at hcond
    have hre : r = ⟨fid, gname, u⟩ := by
      cases r
      simp only at hcond
      simp [hcond.1, hcond.2.1, hcond.2.2]
    show (⟨fid, gname, u⟩ : GlyphUnicodeRow) ∈ db.glyph_unicode
    rw [← hre]
    exact hr
  | false =>
    rw [if_neg (by rw [hc]; exact Bool.false_ne_true)] at h
    split at h
    · injection h with h; subst h
      exact List.mem_append_right _ (List.mem_singleton.mpr rfl)
    · exact Except.noConfusion h

lemma insertGlyphUnicode_noop {fid gname : String} {u : Nat} {db : CacheDB}
    (h : guHas fid gname u db) : insertGlyphUnicode fid gname u db = Except.ok db := by
  unfold insertGlyphUnicode
  have hb : db.glyph_unicode.any (fun r =>
      r.font_id = fid ∧ r.glyph_name = gname ∧ r.unicode = u) = true := by
    rw [List.any_eq_true]
    exact ⟨⟨fid, gname, u⟩, h, by simp⟩
  rw [if_pos hb]

lemma cacheUnicodes_dbLE {fid gname : String} {us : List Nat} {db db' : CacheDB}
    (h : cacheUnicodes fid gname us db = Except.ok db') : dbLE db db' := by
  induction us generalizing db with
  | nil =>
    unfold cacheUnicodes at h
    injection h with h; subst h; exact dbLE_refl _
  | cons u us ih =>
    unfold cacheUnicodes at h
    cases hi : insertGlyphUnicode fid gname u db with
    | error e => rw [hi] at h; exact Except.noConfusion h
    | ok db₁ =>
      rw [hi] at h
      exact dbLE_trans (insertGlyphUnicode_dbLE hi) (ih h)

lemma cacheUnicodes_establish {fid gname : String} {us : List Nat} {db db' : CacheDB}
    (h : cacheUnicodes fid gname us db = Except.ok db') :
    ∀ u ∈ us, guHas fid gname u db' := by
  induction us generalizing db with
  | nil => intro u hu; simp at hu
  | cons v us ih =>
    intro u hu
    unfold cacheUnicodes at h
    cases hi : insertGlyphUnicode fid gname v db with
    | error e => rw [hi] at h; exact Except.noConfusion h
    | ok db₁ =>
      rw [hi] at h
      rcases List.mem_cons.mp hu with heq | hmem
      · subst heq
        exact guHas_mono (cacheUnicodes_dbLE h) (insertGlyphUnicode_establish hi)
      · exact ih h u hmem

lemma cacheUnicodes_noop {fid gname : String} {us : List Nat} {db : CacheDB}
    (h : ∀ u ∈ us, guHas fid gname u db) : cacheUnicodes fid gname us db = Except.ok db := by
  induction us with
  | nil => rfl
  | cons u us ih =>
    unfold cacheUnicodes
    rw [insertGlyphUnicode_noop (h u (List.mem_cons_self u us))]
    exact ih (fun v hv => h v (List.mem_cons_of_mem u hv))

lemma cacheGlyphs_dbLE {fid : String} {gs : List GlyphData} {i : Nat} {db db' : CacheDB}
    (h : cacheGlyphs fid gs i db = Except.ok db') : dbLE db db' := by
  induction gs generalizing i db with
  | nil =>
    unfold cacheGlyphs at h
    injection h with h; subst h; exact dbLE_refl _
  | cons g gs ih =>
    unfold cacheGlyphs at h
    cases h1 : insertGlyph fid i g.name db with
    | error e => rw [h1] at h; exact Except.noConfusion h
    | ok db₁ =>
      simp only [h1] at h
      cases h2 : cacheUnicodes fid g.name g.unicodes db₁ with
      | error e => rw [h2] at h; exact Except.noConfusion h
      | ok db₂ =>
        simp only [h2] at h
        exact dbLE_trans (insertGlyph_dbLE h1)
          (dbLE_trans (cacheUnicodes_dbLE h2) (ih h))

lemma cacheGlyphs_establish {fid : String} {gs : List GlyphData} {i : Nat} {db db' : CacheDB}
    (h : cacheGlyphs fid gs i db = Except.ok db') : GlyphsCached fid gs i db' := by
  induction gs generalizing i db with
  | nil => trivial
  | cons g gs ih =>
    unfold cacheGlyphs at h
    cases h1 : insertGlyph fid i g.name db with
    | error e => rw [h1] at h; exact Except.noConfusion h
    | ok db₁ =>
      simp only [h1] at h
      cases h2 : cacheUnicodes fid g.name g.unicodes db₁ with
      | error e => rw [h2] at h; exact Except.noConfusion h
      | ok db₂ =>
        simp only [h2] at h
        have hle₂ : dbLE db₂ db' := cacheGlyphs_dbLE h
        have hle₁ : dbLE db₁ db' := dbLE_trans (cacheUnicodes_dbLE h2) hle₂
        refine ⟨glyphConflict_mono hle₁ (insertGlyph_establish h1), ?_, ih h⟩
        intro u hu
        exact guHas_mono hle₂ (cacheUnicodes_establish h2 u hu)

lemma cacheGlyphs_noop {fid : String} {gs : List GlyphData} {i : Nat} {db : CacheDB}
    (h : GlyphsCached fid gs i db) : cacheGlyphs fid gs i db = Except.ok db := by
  induction gs generalizing i with
  | nil => rfl
  | cons g gs ih =>
    obtain ⟨h1, h2, h3⟩ := h
    unfold cacheGlyphs
    simp only [insertGlyph_noop h1, cacheUnicodes_noop h2]
    exact ih h3

lemma addFontToCache_idem {fid : String} {font : Font} {db db₁ : CacheDB}
    (h : addFontToCache fid font db = Except.ok db₁) :
    addFontToCache fid font db₁ = Except.ok db₁ := by
  unfold addFontToCache at h ⊢
  have hfont : fontHas fid db₁ :=
    fontHas_mono (cacheGlyphs_dbLE h) (insertFont_establish fid "n/a" db)
  rw [insertFont_noop "n/a" hfont]
  exact cacheGlyphs_noop (cacheGlyphs_establish h)

theorem dbAB_from_record :
    addFontToCache "AB12CD34" ⟨[⟨"seven", [57377]⟩]⟩ emptyDB = Except.ok dbAB := by
  decide


/-! ## Claim theorems -/


/-- C8 (counterexample): `queryGlyphByUnicode` executes its `SELECT`
without ever awaiting `__dbInitialized`, so not every cache operation
other than initialization waits for schema initialization. -/
theorem c8_counterexample :
    awaitsInitBeforeQueries queryGlyphByUnicodeActions = false := by decide

/-- C8 (amended): `isFontCached` and the three cache-write operations
each await `__dbInitialized` before executing their statement, but the
codepoint resolve of `queryGlyphByUnicode` does not. -/
theorem c8_amended :
    awaitsInitBeforeQueries isFontCachedActions = true ∧
    awaitsInitBeforeQueries cacheFontActions = true ∧
    awaitsInitBeforeQueries cacheGlyphActions = true ∧
    awaitsInitBeforeQueries cacheGlyphUnicodeActions = true ∧
    awaitsInitBeforeQueries queryGlyphByUnicodeActions = false := by decide

/-- C7 (counterexample): `__loadFont` never inspects `response.status`;
a 500 response whose body parses as a font resolves successfully instead
of reporting a failed result. -/
theorem c7_counterexample :
    loadFontFetchPhase env500 = LoadOutcome.resolved fontOk := rfl

/-- C7 (amended): only an error event on the response stream is reported
to the caller as a failed result, with no internal retry; a rejection of
`fetch` itself, a write failure on the temporary artifact, and a
binary-parse failure each leave the load promise pending forever —
neither `resolve` nor `reject` runs on those paths (the write and parse
throws additionally escape as uncaught exceptions) — and the outcome
never depends on the HTTP status. -/
theorem c7_amended (env : LoadEnv) :
    (∀ e, env.fetchResult = Except.error e →
      loadFontFetchPhase env = LoadOutcome.pending) ∧
    (∀ resp e, env.fetchResult = Except.ok resp → resp.body = Except.error e →
      loadFontFetchPhase env = LoadOutcome.rejected e) ∧
    (∀ resp bytes e, env.fetchResult = Except.ok resp → resp.body = Except.ok bytes →
      env.writeResult bytes = Except.error e →
      loadFontFetchPhase env = LoadOutcome.pending) ∧
    (∀ resp bytes e, env.fetchResult = Except.ok resp → resp.body = Except.ok bytes →
      env.writeResult bytes = Except.ok () → env.parseResult bytes = Except.error e →
      loadFontFetchPhase env = LoadOutcome.pending) ∧
    (∀ s, loadFontFetchPhase { env with fetchResult := withStatus env.fetchResult s } =
      loadFontFetchPhase env) := by
  refine ⟨?_, ?_, ?_, ?_, ?_⟩
  · intro e he; simp [loadFontFetchPhase, he]
  · intro resp e hf hb; simp [loadFontFetchPhase, hf, hb]
  · intro resp bytes e hf hb hw; simp [loadFontFetchPhase, hf, hb, hw]
  · intro resp bytes e hf hb hw hp; simp [loadFontFetchPhase, hf, hb, hw, hp]
  · intro s
    cases hf : env.fetchResult with
    | error e => simp [loadFontFetchPhase, withStatus, hf]
    | ok resp => simp [loadFontFetchPhase, withStatus, hf]

theorem c7_amended_witness :
    loadFontFetchPhase envBodyErr = LoadOutcome.rejected "stream error" :=
  (c7_amended envBodyErr).2.1 ⟨200, Except.error "stream error"⟩ "stream error" rfl rfl

/-- C9: when the extracted start timestamps, club-name pairs, and
home/guest score lists all have the same cardinality `n`, `parse`
resolves with exactly `n` matches; when any of these counts disagree it
rejects with an error and produces no partial result. -/
theorem c9_cardinality (n : Nat) (started : List Nat) (clubIds clubNames : List String)
    (home guest : List Nat) :
    (started.length = n → clubNames.length = 2 * n → home.length = n → guest.length = n →
      ∃ ms, parseChecked started clubIds clubNames home guest = Except.ok ms ∧
        ms.length = n) ∧
    (¬ (home.length = guest.length ∧ started.length = home.length ∧
        2 * started.length = clubNames.length) →
      ∃ msg, parseChecked started clubIds clubNames home guest = Except.error msg) := by
  constructor
  · intro h1 h2 h3 h4
    have hok : parseChecked started clubIds clubNames home guest =
        Except.ok (assembleMatches started clubIds clubNames home guest) := by
      unfold parseChecked
      rw [if_neg (by omega), if_neg (by omega), if_neg (by omega)]
    exact ⟨_, hok, by simp [assembleMatches, h3]⟩
  · intro h
    unfold parseChecked
    split
    · exact ⟨_, rfl⟩
    · split
      · exact ⟨_, rfl⟩
      · split
        · exact ⟨_, rfl⟩
        · next h1 h2 h3 => exact absurd ⟨by omega, by omega, by omega⟩ h

theorem c9_cardinality_witness :
    ∃ ms, parseChecked [1] ["i1", "i2"] ["A", "B"] [2] [3] = Except.ok ms ∧
      ms.length = 1 :=
  (c9_cardinality 1 [1] ["i1", "i2"] ["A", "B"] [2] [3]).1 rfl rfl rfl rfl

/-- C2: for each digit `d`, caching a font whose glyph is named the
canonical token for `d` at codepoint `c` and then decoding `(F, c)`
resolves with `d`. -/
theorem c2_roundtrip (d c : Nat) (F : String) (hd : d < 10) :
    ∃ db, addFontToCache F ⟨[⟨digitToken d, [c]⟩]⟩ emptyDB = Except.ok db ∧
      translate F c db = QueryOutcome.resolved d := by
  refine ⟨⟨[⟨F, "n/a"⟩], [⟨F, 0, digitToken d⟩], [⟨F, digitToken d, c⟩]⟩, ?_, ?_⟩
  · simp [addFontToCache, cacheGlyphs, cacheUnicodes, insertFont, insertGlyph,
      insertGlyphUnicode, emptyDB]
  · have hconv : convertGlyphNameToNumber (digitToken d) = Except.ok d := by
      interval_cases d <;> rfl
    simp [translate, queryGlyphByUnicode, queryView, unicodeToGlyphName, hconv]

theorem c2_roundtrip_witness :
    ∃ db, addFontToCache "AB12CD34" ⟨[⟨digitToken 7, [57377]⟩]⟩ emptyDB = Except.ok db ∧
      translate "AB12CD34" 57377 db = QueryOutcome.resolved 7 :=
  c2_roundtrip 7 57377 "AB12CD34" (by decide)

/-- C4 (counterexample): with font id `AB12CD34` cached holding glyph
`{name: "seven", codepoint: 0xE021}`, decoding with the differently
cased id `ab12cd34` does not return 7: the view query compares
`font_id = ?` case-sensitively. -/
theorem c4_counterexample :
    translate "ab12cd34" 57377 dbAB ≠ QueryOutcome.resolved 7 := by decide

/-- C4 (amended): font id comparison at the decode interface is
case-sensitive: with `AB12CD34` cached holding glyph
`{name: "seven", codepoint: 0xE021}`, decoding with the identical id
resolves with 7, while the differently cased `ab12cd34` is rejected with
a "no glyph found" error even though `isFontCached` (the one
case-insensitive comparison) still reports the font as cached. -/
theorem c4_amended :
    translate "AB12CD34" 57377 dbAB = QueryOutcome.resolved 7 ∧
    isFontCached "ab12cd34" dbAB = true ∧
    translate "ab12cd34" 57377 dbAB =
      QueryOutcome.rejected ("No glyph with unicode " ++ toString 57377 ++
        " found for font " ++ "ab12cd34" ++ "!") := by
  refine ⟨by decide, by decide, rfl⟩

/-- C6 (code bug): a cached `(font id, codepoint)` pair resolving to a
glyph name outside the ten digit tokens makes the conversion throw
inside the sqlite3 `get` completion callback, where neither `resolve`
nor `reject` ever runs: `translate`'s promise never settles and the
error escapes as an uncaught exception.  The claim (and the `default:
throw` / try-catch-reject structure of the source itself) intends an
UnsupportedGlyphName failure delivered to the caller; the code crashes
instead of delivering it. -/
theorem c6_unsupported_crash (db : CacheDB) (F : String) (c : Nat) (gname : String)
    (hq : queryView F c db = some gname)
    (hname : gname ∉ ["zero", "one", "two", "three", "four", "five", "six",
      "seven", "eight", "nine"]) :
    translate F c db =
      QueryOutcome.uncaughtCrash
        ("Glyph name " ++ gname ++ " is not supported for conversion!") := by
  simp only [List.mem_cons, List.not_mem_nil, or_false, not_or] at hname
  obtain ⟨h0, h1, h2, h3, h4, h5, h6, h7, h8, h9⟩ := hname
  simp [translate, queryGlyphByUnicode, hq, convertGlyphNameToNumber,
    h0, h1, h2, h3, h4, h5, h6, h7, h8, h9]

theorem c6_unsupported_crash_witness :
    translate "F1" 58000 dbColon =
      QueryOutcome.uncaughtCrash
        ("Glyph name " ++ "colon" ++ " is not supported for conversion!") :=
  c6_unsupported_crash dbColon "F1" 58000 "colon" (by decide) (by decide)

/-- C1: over every trace of `loadFont` calls and task settlements (each
`loadFont` call is one atomic step of the cooperative scheduler), a font
id is fetched by `__loadFont` at most once — exactly once as soon as one
`loadFont` call for it occurs — `addFontToCache` runs at most once for
it, and every `loadFont` caller for it receives the same load task. -/
theorem c1_dedup (es : List Event) (F : String) :
    (run es).fetches.count F ≤ 1 ∧
    (run es).records.count F ≤ 1 ∧
    (Event.call F ∈ es → (run es).fetches.count F = 1) ∧
    (∀ p ∈ callResults es, ∀ q ∈ callResults es, p.1 = F → q.1 = F → p.2 = q.2) := by
  obtain ⟨hB, hA, hF, hN, hO⟩ := coordInv_exec coordInv_init es
  refine ⟨?_, hF F, ?_, ?_⟩
  · unfold run
    rw [hA F]
    exact hB F
  · intro hc
    obtain ⟨t, ht⟩ := exec_call_lookup (s := initCoord) hc
    have h1 := one_le_countKey_of_some ht
    have h2 := hA F
    have h3 := hB F
    unfold run
    omega
  · intro p hp q hq hpF hqF
    unfold callResults at hp hq
    have h1 := exec_callResult p hp
    have h2 := exec_callResult q hq
    rw [hpF] at h1
    rw [hqF] at h2
    rw [h1] at h2
    exact Option.some_inj.mp h2

theorem c1_dedup_witness :
    (run [Event.call "A", Event.call "A"]).fetches.count "A" = 1 :=
  (c1_dedup [Event.call "A", Event.call "A"] "A").2.2.1 (by decide)

/-- C5: once a `loadFont(F)` call has produced a task that failed, the
registry entry for `F` is never removed or replaced: after any further
events, `F` still maps to the same task, no new `__loadFont` fetch for
`F` is ever started, and every later `loadFont(F)` caller receives that
same failed task. -/
theorem c5_failure_sticky (es₁ es₂ : List Event) (F : String) (t : Nat)
    (hreg : lookupRegistry (run es₁).registry F = some t)
    (_hfail : statusOf (run es₁) t = TaskStatus.failed) :
    lookupRegistry (run (es₁ ++ es₂)).registry F = some t ∧
    (run (es₁ ++ es₂)).fetches.count F = (run es₁).fetches.count F ∧
    (∀ p ∈ (exec (run es₁) es₂).2, p.1 = F → p.2 = t) := by
  have hex := exec_append initCoord es₁ es₂
  have hst := exec_stable (s := run es₁) hreg es₂
  refine ⟨?_, ?_, ?_⟩
  · unfold run
    rw [hex]
    exact hst.1
  · unfold run
    rw [hex]
    exact hst.2
  · intro p hp hpF
    have h1 := exec_callResult (s := run es₁) p hp
    rw [hpF, hst.1] at h1
    exact (Option.some_inj.mp h1).symm

theorem c5_failure_sticky_witness :
    lookupRegistry
      (run ([Event.call "A", Event.complete 0 false false] ++ [Event.call "A"])).registry
      "A" = some 0 :=
  (c5_failure_sticky [Event.call "A", Event.complete 0 false false] [Event.call "A"]
    "A" 0 (by decide) (by decide)).1

/-- C10: the dedup registry is keyed by exact (`===`) string equality of
the font id: two `loadFont` calls whose ids are equal ignoring case but
not identical each start their own `__loadFont` fetch, so at-most-one
fetch holds only per exact string. -/
theorem c10_registry_exact (a b : String) (hne : a ≠ b)
    (_hcase : sqlLower a = sqlLower b) :
    (run [Event.call a, Event.call b]).fetches = [a, b] := by
  simp [run, exec, stepCall, lookupRegistry, initCoord, hne]

theorem c10_registry_exact_witness :
    "AB12CD34" ≠ "ab12cd34" ∧ sqlLower "AB12CD34" = sqlLower "ab12cd34" ∧
    (run [Event.call "AB12CD34", Event.call "ab12cd34"]).fetches =
      ["AB12CD34", "ab12cd34"] :=
  ⟨by decide, by decide, c10_registry_exact "AB12CD34" "ab12cd34" (by decide) (by decide)⟩

/-- C3: re-recording a font with identical font/glyph/codepoint data is
idempotent: the second `addFontToCache` call succeeds (no uniqueness
violation — every statement is an upsert), and leaves the row count of
each table and every resolvable (font id, codepoint) → glyph-name
mapping unchanged. -/
theorem c3_idempotent (fid : String) (font : Font) (db db₁ : CacheDB)
    (h : addFontToCache fid font db = Except.ok db₁) :
    ∃ db₂, addFontToCache fid font db₁ = Except.ok db₂ ∧
      db₂.font.length = db₁.font.length ∧
      db₂.glyph.length = db₁.glyph.length ∧
      db₂.glyph_unicode.length = db₁.glyph_unicode.length ∧
      (∀ g u, queryView g u db₂ = queryView g u db₁) :=
  ⟨db₁, addFontToCache_idem h, rfl, rfl, rfl, fun _ _ => rfl⟩

theorem c3_idempotent_witness :
    ∃ db₂, addFontToCache "AB12CD34" ⟨[⟨"seven", [57377]⟩]⟩ dbAB = Except.ok db₂ ∧
      db₂.font.length = dbAB.font.length ∧
      db₂.glyph.length = dbAB.glyph.length ∧
      db₂.glyph_unicode.length = dbAB.glyph_unicode.length ∧
      (∀ g u, queryView g u db₂ = queryView g u dbAB) :=
  c3_idempotent "AB12CD34" ⟨[⟨"seven", [57377]⟩]⟩ emptyDB dbAB (by decide)

end Gathering
